import Mathlib

/-!
# Verification of `o1-replication-journey-tree-viewer`

A shallow embedding of the repository's three Python modules
(`o1_replication_journey/conversation.py`, `o1_replication_journey/step.py`,
`src/visualize_tree.py`) together with proofs about the embedded operations.

Modelling conventions:
* Python strings are modelled as `List Char` (`PyStr`); the Python string
  operations used by the code (`split`, `strip`, `upper`, `in`, slicing,
  `zfill`, `hex`) are modelled character-by-character below.
* Python `float` values occurring in this code are finite decimals produced by
  `float(...)` on decimal literals; they are modelled exactly as rationals `ℚ`.
* Fallible operations (attribute access that can raise `AttributeError`,
  division that can raise `ZeroDivisionError`) are modelled with `Option`.
-/

namespace O1Tree

/-- Python strings, modelled as lists of characters. -/
abbrev PyStr := List Char

/-- Characters stripped by Python's `str.strip()` (ASCII whitespace; the code
under verification only manipulates ASCII content around the markers). -/
def pyIsSpace (c : Char) : Bool :=
  c == ' ' || c == '\t' || c == '\n' || c == '\r' || c == '\x0b' || c == '\x0c'

/-- Model of Python `str.strip()`: remove leading and trailing whitespace. -/
def pyStrip (s : PyStr) : PyStr :=
  ((s.dropWhile pyIsSpace).reverse.dropWhile pyIsSpace).reverse

/-- Model of Python `str.upper()` on ASCII content. -/
def pyUpper (s : PyStr) : PyStr := s.map Char.toUpper

/-- First occurrence of the substring `sep` in a string: `splitFirst sep s`
returns `some (pre, post)` with `s = pre ++ sep ++ post` where `pre` is the
shortest such prefix, and `none` when `sep` does not occur in `s`. -/
def splitFirst (sep : PyStr) : PyStr → Option (PyStr × PyStr)
  | [] => if sep.isEmpty then some ([], []) else none
  | c :: rest =>
    if (c :: rest).take sep.length = sep then some ([], (c :: rest).drop sep.length)
    else (splitFirst sep rest).map fun p => (c :: p.1, p.2)

/-- Model of the Python substring test `sep in s`. -/
def containsSeq (s sep : PyStr) : Bool := (splitFirst sep s).isSome

/-- Fuel-driven worker for `pySplit`; the fuel only serves to make the
recursion structural, `s.length + 1` steps always suffice for a nonempty
separator because each found occurrence strictly shortens the remainder. -/
def pySplitFuel (sep : PyStr) : ℕ → PyStr → List PyStr
  | 0, s => [s]
  | fuel + 1, s =>
    match splitFirst sep s with
    | none => [s]
    | some (pre, post) => pre :: pySplitFuel sep fuel post

/-- Model of Python `s.split(sep)` for a nonempty separator `sep`
(Python raises `ValueError` on an empty separator; the separators used by the
code, `"Total Score:"` and `"\n"`, are nonempty). -/
def pySplit (s sep : PyStr) : List PyStr := pySplitFuel sep (s.length + 1) s

/-- Numeric value of a digit string (used by the `float()` model). -/
def natOfDigits (cs : PyStr) : ℕ :=
  cs.foldl (fun n c => 10 * n + (c.toNat - 48)) 0

/-- Syntactic phase of the CPython `float(s)` model, restricted to decimal
literals: optional surrounding whitespace, optional sign, decimal digits with
an optional point, optional decimal exponent.  Returns the sign, the integer
digits, the fraction digits and the exponent value.  (The special forms
`inf`/`nan` and digit-group underscores, which never occur in the scores this
program parses, are not modelled; such inputs are reported as unparsable.) -/
def parsePyFloat (s : PyStr) : Option (Bool × PyStr × PyStr × ℤ) :=
  let s := pyStrip s
  let signBody : Bool × PyStr :=
    match s with
    | '+' :: rest => (false, rest)
    | '-' :: rest => (true, rest)
    | _ => (false, s)
  let mantExp := signBody.2.span fun c => !(c == 'e' || c == 'E')
  let exp? : Option ℤ :=
    match mantExp.2 with
    | [] => some 0
    | _ :: rest =>
      let esign : ℤ × PyStr :=
        match rest with
        | '+' :: r => (1, r)
        | '-' :: r => (-1, r)
        | _ => (1, rest)
      if esign.2 ≠ [] ∧ esign.2.all Char.isDigit then some (esign.1 * natOfDigits esign.2)
      else none
  let ipDot := mantExp.1.span fun c => !(c == '.')
  let ip := ipDot.1
  let digits? : Option (PyStr × PyStr) :=
    match ipDot.2 with
    | [] => if ip ≠ [] ∧ ip.all Char.isDigit then some (ip, []) else none
    | _ :: frac =>
      if (ip ≠ [] ∨ frac ≠ []) ∧ ip.all Char.isDigit ∧ frac.all Char.isDigit then
        some (ip, frac)
      else none
  match digits?, exp? with
  | some d, some e => some (signBody.1, d.1, d.2, e)
  | _, _ => none

/-- Numeric phase of the `float(s)` model: the exact rational value of a
parsed decimal literal. -/
def decimalValue (neg : Bool) (ip frac : PyStr) (e : ℤ) : ℚ :=
  (if neg then -1 else 1) *
    ((natOfDigits ip : ℚ) + (natOfDigits frac : ℚ) / (10 : ℚ) ^ frac.length) *
    (if 0 ≤ e then (10 : ℚ) ^ e.toNat else 1 / (10 : ℚ) ^ (-e).toNat)

/-- Model of CPython `float(s)` on decimal literals, as an exact rational. -/
def pyFloat (s : PyStr) : Option ℚ :=
  (parsePyFloat s).map fun r => decimalValue r.1 r.2.1 r.2.2.1 r.2.2.2

/-! ## `o1_replication_journey/conversation.py` -/

/-- The `role` field of a `Message` (`typing.Literal["user", "system", "assistant"]`). -/
inductive Role where
  | user
  | system
  | assistant
deriving DecidableEq, Repr

/-- `Message`: a message in a chat-oriented LLM.  Field defaults in the
pydantic model: `name = None`, `weight = 1`. -/
structure Message where
  role : Role
  content : PyStr
  name : Option PyStr := none
  weight : ℤ := 1
deriving DecidableEq, Repr

/-- `Message.user`. -/
def Message.user (content : PyStr) : Message := { role := .user, content := content }

/-- `Message.system`. -/
def Message.system (content : PyStr) : Message := { role := .system, content := content }

/-- `Message.assistant`. -/
def Message.assistant (content : PyStr) : Message := { role := .assistant, content := content }

/-- A message dictionary (the wire form produced by
`model_dump(exclude_defaults=True)` and consumed by `model_validate`):
`role` and `content` are always present, `name` and `weight` may be absent
(`none`).  A JSON `"name": null` entry validates identically to an absent
`name`, so both are modelled as `none`. -/
structure MessageDict where
  role : Role
  content : PyStr
  name : Option PyStr
  weight : Option ℤ
deriving DecidableEq, Repr

/-- `Message.to_dict = model_dump(exclude_defaults=True)`: fields equal to
their declared defaults (`name = None`, `weight = 1`) are omitted. -/
def Message.to_dict (m : Message) : MessageDict :=
  { role := m.role
    content := m.content
    name := m.name
    weight := if m.weight = 1 then none else some m.weight }

/-- Pydantic validation of one message dictionary into a `Message`
(absent fields take their defaults). -/
def Message.validate (d : MessageDict) : Message :=
  { role := d.role
    content := d.content
    name := d.name
    weight := d.weight.getD 1 }

/-- `Conversation`: a list of messages.  The claims under verification
quantify over conversations built from plain `Message`s, so the message list
holds plain `Message`s (the `type(message) is not Message` branch of
`to_mmd`, which re-validates subclass instances through the `Message` fields,
is the identity on this fragment). -/
structure Conversation where
  messages : List Message
deriving DecidableEq, Repr

/-- `Conversation.from_mmd`: validate a list of message dictionaries. -/
def Conversation.from_mmd (message_dicts : List MessageDict) : Conversation :=
  { messages := message_dicts.map Message.validate }

/-- `Conversation.to_mmd`: convert the conversation to message dictionaries. -/
def Conversation.to_mmd (c : Conversation) : List MessageDict :=
  c.messages.map Message.to_dict

/-- `Conversation.__add__` on a `Conversation` argument. -/
def Conversation.add (self other : Conversation) : Conversation :=
  { messages := self.messages ++ other.messages }

/-- `Conversation.__add__` on a `Message` argument (the
`isinstance(other, Message)` branch). -/
def Conversation.addMessage (self : Conversation) (other : Message) : Conversation :=
  { messages := self.messages ++ [other] }

/-- `Conversation.__radd__`: prepend a message (`Message + Conversation`). -/
def Conversation.radd (self : Conversation) (other : Message) : Conversation :=
  { messages := other :: self.messages }

/-- The marker substring scanned for by `ScoreMessage.score`. -/
def scoreMarker : PyStr := String.toList "Total Score:"

/-- The string-extraction part of `ScoreMessage.score`: filter the content's
lines to those containing `"Total Score:"`, take the last one (`IndexError`
when there is none, modelled as `none`) and take `split("Total Score:")[1]`
(an `IndexError` there is likewise `none`). -/
def scoreExtract (content : PyStr) : Option PyStr :=
  let lines := content.splitOn '\n'
  let marked := lines.filter fun line => containsSeq line scoreMarker
  match marked.getLast? with
  | none => none
  | some line => (pySplit line scoreMarker).get? 1

/-- `ScoreMessage.score` together with whether the `except` branch ran (the
second component is `true` exactly when a diagnostic is echoed to stderr):
the extracted text is stripped and passed to `float` (`ValueError` on parse
failure); the caught `IndexError`/`ValueError` both yield `-1.0`. -/
def scoreWithDiag (content : PyStr) : ℚ × Bool :=
  match scoreExtract content with
  | none => (-1, true)
  | some part =>
    match pyFloat (pyStrip part) with
    | some q => (q, false)
    | none => (-1, true)

/-- `ScoreMessage`: a step with an extracted score. -/
structure ScoreMessage extends Message
deriving DecidableEq, Repr

/-- `ScoreMessage.score` (the cached property's value). -/
def ScoreMessage.score (m : ScoreMessage) : ℚ := (scoreWithDiag m.content).1

/-- `ScoreMessage.__lt__`: inverted, for priority-queue ordering. -/
def ScoreMessage.lt (self other : ScoreMessage) : Bool :=
  decide (other.score < self.score)

/-- `TerminalCheckMessage`. -/
structure TerminalCheckMessage extends Message
deriving DecidableEq, Repr

/-- `TerminalCheckMessage.is_final`: looks for `TERMINAL: YES` and then for
`TERMINAL: NO` in the upper-cased content; when neither occurs the Python
function falls off the end and returns `None`, modelled as `none` (the
`except` branch is unreachable: `upper` and `in` raise nothing on `str`). -/
def TerminalCheckMessage.is_final (m : TerminalCheckMessage) : Option Bool :=
  if containsSeq (pyUpper m.content) (String.toList "TERMINAL: YES") then some true
  else if containsSeq (pyUpper m.content) (String.toList "TERMINAL: NO") then some false
  else none

/-! ## `o1_replication_journey/step.py`

The Python object graph links every `ReasoningStep` to its parent through
`parent_step` and every `Step` to its children through `child_steps` (the two
pointers form reference cycles, which an inductive value cannot contain).
The methods of `step.py` traverse only `parent_step`, so this embedding of a
step captures the parent chain; the visualizer's functions traverse only
`child_steps` and are embedded over the child view further below.  The
`improved_step` and `child_steps` fields, which none of the embedded methods
consult, are omitted from the constructor. -/

/-- `STEPPER_MESSAGE = Message.user("next")`. -/
def STEPPER_MESSAGE : Message := Message.user (String.toList "next")

/-- `StepTrajectory`: a trajectory of steps. -/
structure StepTrajectory where
  base_conversation : Conversation
  step_messages : List Message
deriving DecidableEq, Repr

/-- A `Step` seen through its parent chain: either the `Root` (holding
`base_conversation`) or a `ReasoningStep` with its pydantic fields
(`aborted` defaults to `True` in the source). -/
inductive Step where
  | root (base_conversation : Conversation)
  | reasoningStep (parent_step : Step) (step_message : Message)
      (score_message : ScoreMessage) (verification_message : Message)
      (terminal_message_check : Option TerminalCheckMessage) (aborted : Bool)
deriving DecidableEq, Repr

/-- `Step.score`: `Root.score` is `0.0`; `ReasoningStep.score` is
`score_message.score`.  (The base-class property raises
`NotImplementedError`, but every node is one of the two subclasses.) -/
def Step.score : Step → ℚ
  | .root _ => 0
  | .reasoningStep _ _ sm _ _ _ => sm.score

/-- `Step.__lt__`: inverted, for priority-queue ordering. -/
def Step.lt (self other : Step) : Bool :=
  decide (other.score < self.score)

/-- The list built by the `while not isinstance(node, Root)` loop of
`ReasoningStep.to_stepped_conversation`: for each node from `self` up to the
root it appends `STEPPER_MESSAGE` and then the node's `step_message`. -/
def Step.loopStepperMessages : Step → List Message
  | .root _ => []
  | .reasoningStep parent msg _ _ _ _ => STEPPER_MESSAGE :: msg :: parent.loopStepperMessages

/-- The `base_conversation` of the `Root` the parent chain ends in (the value
of `node.base_conversation` after the walk loops finish). -/
def Step.rootBaseConversation : Step → Conversation
  | .root base => base
  | .reasoningStep parent _ _ _ _ _ => parent.rootBaseConversation

/-- `to_stepped_conversation`: `Root`'s override returns `base_conversation`;
`ReasoningStep`'s override walks to the root collecting
`[STEPPER_MESSAGE, step_message]` pairs, drops the first collected entry when
`with_next_stepper` is false (`reversed_messages[1:]`), and appends the
reversal to the root's `base_conversation` with `Conversation.__add__`. -/
def Step.to_stepped_conversation (s : Step) (with_next_stepper : Bool) : Conversation :=
  match s with
  | .root base => base
  | .reasoningStep _ _ _ _ _ _ =>
    let reversed_messages := s.loopStepperMessages
    let reversed_messages :=
      if with_next_stepper then reversed_messages else reversed_messages.drop 1
    (s.rootBaseConversation).add { messages := reversed_messages.reverse }

/-- The list built by the walk loop of `ReasoningStep.to_step_trajectory`:
the `step_message`s from `self` up to the root. -/
def Step.loopStepMessages : Step → List Message
  | .root _ => []
  | .reasoningStep parent msg _ _ _ _ => msg :: parent.loopStepMessages

/-- `to_step_trajectory`: `Root`'s override returns its `base_conversation`
with no step messages; `ReasoningStep`'s override collects the
`step_message`s up the chain and reverses them. -/
def Step.to_step_trajectory (s : Step) : StepTrajectory :=
  match s with
  | .root base => { base_conversation := base, step_messages := [] }
  | .reasoningStep _ _ _ _ _ _ =>
    { base_conversation := s.rootBaseConversation
      step_messages := s.loopStepMessages.reverse }

/-- Spec-side notion: the depth of a step (number of `parent_step` links to
the root). -/
def Step.depth : Step → ℕ
  | .root _ => 0
  | .reasoningStep parent _ _ _ _ _ => parent.depth + 1

/-- Spec-side notion: the step messages along the chain in root-to-leaf
order. -/
def Step.msgsFromRoot : Step → List Message
  | .root _ => []
  | .reasoningStep parent msg _ _ _ _ => parent.msgsFromRoot ++ [msg]

/-! ## `src/visualize_tree.py`

The visualizer walks the tree downward through `child_steps`.  A
`ReasoningStep` seen through that view is its `score`, its `aborted` flag and
its children (`has_accepted_leafs` and `get_min_max_scores` consult nothing
else; in particular no `ReasoningStep` lacks the `aborted` attribute, it is a
pydantic field with default `True`). -/

/-- A `ReasoningStep` subtree in the `child_steps` view. -/
inductive ChildStep where
  | mk (score : ℚ) (aborted : Bool) (child_steps : List ChildStep)

/-- The tree handed to the visualizer: its `Root` (score fixed at `0.0`, no
`aborted` attribute) with its `child_steps`, or a `ReasoningStep` subtree. -/
inductive VizTree where
  | root (child_steps : List ChildStep)
  | reasoningStep (step : ChildStep)

mutual

/-- `has_accepted_leafs` on a `ReasoningStep` (which always has the `aborted`
attribute): an internal aborted step yields `False` outright, an internal
live step asks `any(...)` over its children, a leaf yields `not aborted`. -/
def hasAcceptedLeafsR : ChildStep → Bool
  | .mk _ aborted child_steps =>
    match child_steps with
    | [] => !aborted
    | c :: cs => if aborted then false else anyAcceptedLeafs (c :: cs)

/-- The `any(has_accepted_leafs(child) for child in step.child_steps)`
generator. -/
def anyAcceptedLeafs : List ChildStep → Bool
  | [] => false
  | c :: cs => hasAcceptedLeafsR c || anyAcceptedLeafs cs

end

/-- `has_accepted_leafs` on an arbitrary node, with `AttributeError`
modelled as `none`: a childless `Root` reaches `step.is_terminal`, an
attribute neither `Root` nor any other class defines, and raises. -/
def hasAcceptedLeafs : VizTree → Option Bool
  | .root child_steps =>
    match child_steps with
    | [] => none
    | c :: cs => some (anyAcceptedLeafs (c :: cs))
  | .reasoningStep s => some (hasAcceptedLeafsR s)

mutual

/-- `get_min_max_scores` on a `ReasoningStep` subtree. -/
def getMinMaxScoresR : ChildStep → ℚ × ℚ
  | .mk score _ child_steps =>
    match child_steps with
    | [] => (score, score)
    | c :: cs =>
      let child := childMinMax (c :: cs)
      (min score child.1, max score child.2)

/-- `min`/`max` over the zipped per-child results (only ever invoked on a
nonempty `child_steps` list; the `[]` equation is unreachable). -/
def childMinMax : List ChildStep → ℚ × ℚ
  | [] => (0, 0)
  | [c] => getMinMaxScoresR c
  | c :: c2 :: cs =>
    let p := getMinMaxScoresR c
    let q := childMinMax (c2 :: cs)
    (min p.1 q.1, max p.2 q.2)

end

/-- `get_min_max_scores` as invoked at the visualizer's call site, on the
whole tree (a `Root` contributes its fixed score `0.0`). -/
def getMinMaxScores : VizTree → ℚ × ℚ
  | .root child_steps =>
    match child_steps with
    | [] => (0, 0)
    | c :: cs =>
      let child := childMinMax (c :: cs)
      (min 0 child.1, max 0 child.2)
  | .reasoningStep s => getMinMaxScoresR s

/-- Python `int()` on a finite float: truncation toward zero. -/
def pyIntTrunc (q : ℚ) : ℤ := if 0 ≤ q then q.floor else q.ceil

/-- Python `hex(n)` as a character list (lowercase digits, `-0x` prefix for
negative arguments). -/
def pyHex (n : ℤ) : PyStr :=
  if n < 0 then '-' :: '0' :: 'x' :: Nat.toDigits 16 (-n).toNat
  else '0' :: 'x' :: Nat.toDigits 16 n.toNat

/-- Python `s[2:]`. -/
def pySlice2 (s : PyStr) : PyStr := s.drop 2

/-- Python `s.zfill(2)` on the sign-free strings produced here. -/
def pyZfill2 (s : PyStr) : PyStr :=
  if 2 ≤ s.length then s else List.replicate (2 - s.length) '0' ++ s

/-- Python float division, `ZeroDivisionError` modelled as `none`. -/
def pyDiv (a b : ℚ) : Option ℚ := if b = 0 then none else some (a / b)

/-- One hex-byte component `hex(int(v))[2:].zfill(2)` of the score color. -/
def hexByte (v : ℚ) : PyStr := pyZfill2 (pySlice2 (pyHex (pyIntTrunc v)))

/-- The per-node score-color computation of `create_flow_elements` for a
non-`Root` node: bright green for score `0.0`, otherwise a red-green blend
from the weight `(score - min) / (max - min)` (weight `0.5` when
`max == min`, guarding the division). -/
def scoreColor (score min_score max_score : ℚ) : Option PyStr :=
  if score = 0 then some (String.toList "#00FF00")
  else
    let weight? : Option ℚ :=
      if max_score = min_score then some (1 / 2)
      else pyDiv (score - min_score) (max_score - min_score)
    weight?.map fun weight =>
      '#' :: (hexByte (40 + 200 * (1 - weight)) ++ hexByte (40 + 200 * weight)
        ++ pyZfill2 (pySlice2 (pyHex 40)))

mutual

/-- Spec-side notion for C3, following the claim's words: the subtree
contains at least one accepted leaf (a leaf here is always a `ReasoningStep`,
which has the `aborted` attribute, so it is accepted exactly when it is not
aborted). -/
def specContainsAcceptedLeaf : ChildStep → Bool
  | .mk _ aborted child_steps =>
    match child_steps with
    | [] => !aborted
    | c :: cs => anyContainsAcceptedLeaf (c :: cs)

/-- `specContainsAcceptedLeaf` over a list of subtrees. -/
def anyContainsAcceptedLeaf : List ChildStep → Bool
  | [] => false
  | c :: cs => specContainsAcceptedLeaf c || anyContainsAcceptedLeaf cs

end

/-- Spec-side notion for the amended C3: an accepted leaf is reachable from
the given step through a chain in which every internal step (the given one
included) is not aborted. -/
inductive AcceptedLive : ChildStep → Prop
  | leaf (score : ℚ) : AcceptedLive (.mk score false [])
  | node (score : ℚ) (child_steps : List ChildStep) (c : ChildStep)
      (hmem : c ∈ child_steps) (hc : AcceptedLive c) :
      AcceptedLive (.mk score false child_steps)

/-! ## Spec-side definitions and concrete instances used by the claims -/

/-- Spec-side notion for C5's wording: the text after a marker occurrence,
truncated at the next occurrence of the marker (end of line when there is
none).  This is exactly what `line.split("Total Score:")[1]` yields. -/
def untilNextMarker (b : PyStr) : PyStr :=
  match splitFirst scoreMarker b with
  | none => b
  | some p => p.1

/-- The extraction C5 literally describes: scan the lines in reverse for the
first line containing the marker and take all the text after the (first
occurrence of the) marker on that line. -/
def specScoreExtract (content : PyStr) : Option PyStr :=
  match (content.splitOn '\n').reverse.find? (fun l => containsSeq l scoreMarker) with
  | none => none
  | some line => (splitFirst scoreMarker line).map fun p => p.2

/-- The score C5 literally describes: the parse of `specScoreExtract`, with
`-1.0` and a diagnostic on a missing line or unparsable text. -/
def specScoreClaim (content : PyStr) : ℚ × Bool :=
  match specScoreExtract content with
  | none => (-1, true)
  | some rest =>
    match pyFloat (pyStrip rest) with
    | some q => (q, false)
    | none => (-1, true)

/-- Spec-side notion for C6: the minimal canonical form of a message
dictionary (`name` omitted when unset, `weight` omitted when it equals 1). -/
def minimalForm (d : MessageDict) : MessageDict :=
  { d with weight := if d.weight = some 1 then none else d.weight }

/-- The element a min-heap of two elements hands out first under the given
`__lt__` (what `heapq.heappop` returns after pushing `a` then `b`). -/
def heapPopTwo {α : Type} (lt : α → α → Bool) (a b : α) : α :=
  if lt b a then b else a

/-- A concrete base conversation. -/
def exBase : Conversation := { messages := [Message.user (String.toList "Solve 2+2.")] }

/-- A concrete score message (score 1). -/
def exScoreMsg : ScoreMessage := { toMessage := Message.assistant (String.toList "Total Score: 1") }

/-- A concrete verification message. -/
def exVerification : Message := Message.assistant (String.toList "Looks right.")

/-- A concrete step message, distinct from `STEPPER_MESSAGE`. -/
def exStepMsg : Message := Message.assistant (String.toList "First, add the numbers.")

/-- A concrete depth-1 reasoning step (its `parent_step` is the `Root`). -/
def exDepth1Step : Step :=
  .reasoningStep (.root exBase) exStepMsg exScoreMsg exVerification none true

/-- The 3-level tree of C2: scores 0 at the `Root`, children 5 and 2, and
grandchildren 9 (below 5) and 1 (below 2). -/
def c2Tree : VizTree :=
  .root [.mk 5 true [.mk 9 true []], .mk 2 true [.mk 1 true []]]

/-- C3's counterexample subtree: an aborted internal step whose only child is
an accepted (non-aborted) leaf. -/
def c3Aborted : ChildStep := .mk 0 true [.mk 0 false []]

/-- C5's counterexample content: one line with two `"Total Score:"` markers. -/
def c5Content : PyStr := String.toList "Total Score: 5 Total Score: 6"

/-- A score message whose content carries `Total Score: 3.0`. -/
def scoreMsg3 : ScoreMessage := { toMessage := Message.assistant (String.toList "Total Score: 3.0") }

/-- A score message whose content carries `Total Score: 8.0`. -/
def scoreMsg8 : ScoreMessage := { toMessage := Message.assistant (String.toList "Total Score: 8.0") }

/-- A reasoning step with score 3.0. -/
def step3 : Step :=
  .reasoningStep (.root exBase) (Message.assistant (String.toList "try A")) scoreMsg3
    exVerification none true

/-- A reasoning step with score 8.0. -/
def step8 : Step :=
  .reasoningStep (.root exBase) (Message.assistant (String.toList "try B")) scoreMsg8
    exVerification none true

/-- C10's witness content: both terminal markers, in mixed letter case. -/
def exTerminalBoth : TerminalCheckMessage :=
  { toMessage := Message.assistant (String.toList "All done. Terminal: Yes (so not terminal: no)") }

/-! ## Helper lemmas -/

/-- `any(...)` over children is an existential. -/
theorem anyAccepted_iff (cs : List ChildStep) :
    anyAcceptedLeafs cs = true ↔ ∃ c ∈ cs, hasAcceptedLeafsR c = true := by
  induction cs with
  | nil => simp [anyAcceptedLeafs]
  | cons c cs ih => simp [anyAcceptedLeafs, ih]

/-- `has_accepted_leafs` on a `ReasoningStep` subtree decides reachability of
an accepted leaf through non-aborted internal steps (strong induction on the
subtree size). -/
theorem accepted_iff_aux : ∀ n, ∀ s : ChildStep, sizeOf s ≤ n →
    (hasAcceptedLeafsR s = true ↔ AcceptedLive s) := by
  intro n
  induction n with
  | zero =>
    intro s hle
    cases s with
    | mk sc ab cs => simp [ChildStep.mk.sizeOf_spec] at hle
  | succ n ih =>
    intro s hle
    cases s with
    | mk sc ab cs =>
      cases cs with
      | nil =>
        constructor
        · intro h
          cases ab with
          | true => simp [hasAcceptedLeafsR] at h
          | false => exact AcceptedLive.leaf sc
        · intro h
          cases h with
          | leaf => simp [hasAcceptedLeafsR]
          | node _ _ c hmem hc => simp at hmem
      | cons c cs =>
        have hchild : ∀ x ∈ c :: cs, sizeOf x ≤ n := by
          intro x hx
          have h1 : sizeOf x < sizeOf (c :: cs) := List.sizeOf_lt_of_mem hx
          have h2 : sizeOf (ChildStep.mk sc ab (c :: cs))
              = 1 + sizeOf sc + sizeOf ab + sizeOf (c :: cs) := by
            simp [ChildStep.mk.sizeOf_spec]
          omega
        cases ab with
        | true =>
          constructor
          · intro h
            simp [hasAcceptedLeafsR] at h
          · intro h
            cases h
        | false =>
          constructor
          · intro h
            simp only [hasAcceptedLeafsR, if_false, Bool.false_eq_true] at h
            rw [anyAccepted_iff] at h
            obtain ⟨x, hx, hacc⟩ := h
            exact AcceptedLive.node sc (c :: cs) x hx ((ih x (hchild x hx)).mp hacc)
          · intro h
            cases h with
            | node _ _ x hmem hx =>
              simp only [hasAcceptedLeafsR, if_false, Bool.false_eq_true]
              rw [anyAccepted_iff]
              exact ⟨x, hmem, (ih x (hchild x hmem)).mpr hx⟩

/-- The walk loop of `to_step_trajectory` collects the chain's step messages
in leaf-to-root order. -/
theorem loopStepMessages_reverse (s : Step) :
    s.loopStepMessages.reverse = s.msgsFromRoot := by
  induction s with
  | root base => simp [Step.loopStepMessages, Step.msgsFromRoot]
  | reasoningStep parent msg sm vm tm ab ih =>
    simp [Step.loopStepMessages, Step.msgsFromRoot, ih]

/-- The number of step messages along the chain is the depth. -/
theorem msgsFromRoot_length (s : Step) : s.msgsFromRoot.length = s.depth := by
  induction s with
  | root base => simp [Step.msgsFromRoot, Step.depth]
  | reasoningStep parent msg sm vm tm ab ih =>
    simp [Step.msgsFromRoot, Step.depth, ih]

/-! ## The claims -/

/-- C1 counterexample: for a concrete depth-1 step,
`to_stepped_conversation(with_next_stepper=True)` is **not**
`base_conversation` followed by `[stepper, step_message]` — the stepper comes
after the step message, not before it. -/
theorem c1_counterexample :
    exDepth1Step.to_stepped_conversation true
      ≠ Conversation.mk (exBase.messages ++ [STEPPER_MESSAGE, exStepMsg]) := by
  decide

/-- C1 (amended): for every depth-1 step,
`to_stepped_conversation(with_next_stepper=True)` returns the root's
`base_conversation` followed by `[step_message, stepper message]` — in that
order — and `with_next_stepper=False` returns `base_conversation` followed by
`[step_message]` only. -/
theorem c1_depth1_stepped_conversation (base : Conversation) (m : Message)
    (sm : ScoreMessage) (vm : Message) (tm : Option TerminalCheckMessage) (ab : Bool) :
    (Step.reasoningStep (.root base) m sm vm tm ab).to_stepped_conversation true
        = Conversation.mk (base.messages ++ [m, STEPPER_MESSAGE])
      ∧ (Step.reasoningStep (.root base) m sm vm tm ab).to_stepped_conversation false
        = Conversation.mk (base.messages ++ [m]) := by
  constructor <;>
    simp [Step.to_stepped_conversation, Step.loopStepperMessages,
      Step.rootBaseConversation, Conversation.add]

/-- C2 counterexample: on the 3-level tree with scores 0 (root), 5, 2, 9, 1,
`get_min_max_scores` invoked on the `Root` does **not** return `(1, 9)`. -/
theorem c2_counterexample : getMinMaxScores c2Tree ≠ (1, 9) := by
  decide

/-- C2 (amended): on that tree the call returns min = 0 and max = 9 — the
root's fixed score `0.0` participates, so the minimum over a root invocation
can never exceed 0. -/
theorem c2_min_max : getMinMaxScores c2Tree = (0, 9)
    ∧ ∀ cs : List ChildStep, (getMinMaxScores (VizTree.root cs)).1 ≤ 0 := by
  constructor
  · decide
  · intro cs
    cases cs with
    | nil => simp [getMinMaxScores]
    | cons c cs => simp [getMinMaxScores]

/-- C3 counterexample: an aborted internal step whose only child is an
accepted leaf — the subtree contains an accepted leaf, yet
`has_accepted_leafs` returns false. -/
theorem c3_counterexample :
    hasAcceptedLeafsR c3Aborted = false ∧ specContainsAcceptedLeaf c3Aborted = true := by
  decide

/-- C3 (amended): `has_accepted_leafs(step)` is true iff an accepted leaf
(a non-aborted leaf) is reachable from `step` through a chain in which every
internal step — `step` itself included — is not aborted; for the `Root`
(which has no `aborted` attribute and never blocks) the condition is that
some child subtree has such a reachable accepted leaf. -/
theorem c3_has_accepted_leafs :
    (∀ s : ChildStep, hasAcceptedLeafsR s = true ↔ AcceptedLive s)
      ∧ ∀ (c : ChildStep) (cs : List ChildStep),
        hasAcceptedLeafs (VizTree.root (c :: cs)) = some true
          ↔ ∃ x ∈ c :: cs, AcceptedLive x := by
  have key : ∀ s : ChildStep, hasAcceptedLeafsR s = true ↔ AcceptedLive s :=
    fun s => accepted_iff_aux (sizeOf s) s le_rfl
  refine ⟨key, ?_⟩
  intro c cs
  rw [show hasAcceptedLeafs (VizTree.root (c :: cs)) = some (anyAcceptedLeafs (c :: cs))
    from rfl]
  rw [Option.some_inj, anyAccepted_iff]
  constructor
  · rintro ⟨x, hx, hacc⟩
    exact ⟨x, hx, (key x).mp hacc⟩
  · rintro ⟨x, hx, hacc⟩
    exact ⟨x, hx, (key x).mpr hacc⟩

/-- C4: the coloring/edge-weighting logic is total on every non-degenerate
tree: `has_accepted_leafs` is defined (raises nothing) on every tree except
the childless root, and the per-node score-color computation is defined for
all score/min/max values (the division is guarded by the `max == min`
check). -/
theorem c4_total :
    (∀ t : VizTree, t ≠ VizTree.root [] → (hasAcceptedLeafs t).isSome = true)
      ∧ ∀ score mn mx : ℚ, (scoreColor score mn mx).isSome = true := by
  constructor
  · intro t ht
    cases t with
    | root cs =>
      cases cs with
      | nil => exact absurd rfl ht
      | cons c cs => simp [hasAcceptedLeafs]
    | reasoningStep s => simp [hasAcceptedLeafs]
  · intro score mn mx
    rw [scoreColor]
    split
    · rfl
    · rw [show (if mx = mn then some ((1 : ℚ) / 2) else pyDiv (score - mn) (mx - mn))
          = some (if mx = mn then (1 : ℚ) / 2 else (score - mn) / (mx - mn)) from ?_]
      · simp
      · split
        · rfl
        · rw [pyDiv, if_neg (sub_ne_zero_of_ne (by assumption))]

/-- C4 witness: the theorem applied to a concrete one-node tree. -/
theorem c4_total_witness :
    (hasAcceptedLeafs (VizTree.reasoningStep (.mk 1 true []))).isSome = true :=
  c4_total.1 (VizTree.reasoningStep (.mk 1 true [])) (fun h => VizTree.noConfusion h)

/-- C7: conversation concatenation concatenates the message lists in order
(so lengths add), `Conversation + Message` appends at the end, and
`Message + Conversation` prepends at the front. -/
theorem c7_concatenation (a b : Conversation) (m : Message) :
    (a.add b).messages = a.messages ++ b.messages
      ∧ (a.add b).messages.length = a.messages.length + b.messages.length
      ∧ (a.addMessage m).messages = a.messages ++ [m]
      ∧ (a.radd m).messages = m :: a.messages := by
  refine ⟨rfl, ?_, rfl, rfl⟩
  simp [Conversation.add]

/-- C8: `to_step_trajectory` pairs the root's `base_conversation` with the
chain's step messages in root-to-leaf order (no stepper markers), their count
being the step's depth; the `Root` itself yields an empty list. -/
theorem c8_step_trajectory (s : Step) :
    s.to_step_trajectory
        = { base_conversation := s.rootBaseConversation, step_messages := s.msgsFromRoot }
      ∧ s.msgsFromRoot.length = s.depth := by
  refine ⟨?_, msgsFromRoot_length s⟩
  cases s with
  | root base => simp [Step.to_step_trajectory, Step.rootBaseConversation, Step.msgsFromRoot]
  | reasoningStep parent msg sm vm tm ab =>
    simp [Step.to_step_trajectory, loopStepMessages_reverse]

/-- Validating a dictionary and dumping it again yields its minimal
canonical form. -/
theorem to_dict_validate (d : MessageDict) :
    (Message.validate d).to_dict = minimalForm d := by
  cases d with
  | mk role content name weight =>
    cases weight with
    | none => simp [Message.validate, Message.to_dict, minimalForm]
    | some w =>
      by_cases hw : w = 1 <;>
        simp [Message.validate, Message.to_dict, minimalForm, hw]

/-- Dumping a message is idempotent through a validate round-trip. -/
theorem to_dict_validate_to_dict (m : Message) :
    (Message.validate m.to_dict).to_dict = m.to_dict := by
  rw [to_dict_validate]
  cases m with
  | mk role content name weight =>
    by_cases hw : weight = 1 <;> simp [Message.to_dict, minimalForm, hw]

/-- C6: the `to_mmd`/`from_mmd` round trip is the identity on dumped
conversations, and a single validated dictionary dumps to its minimal
canonical form (`name` omitted when unset, `weight` omitted when 1). -/
theorem c6_roundtrip :
    (∀ c : Conversation, (Conversation.from_mmd c.to_mmd).to_mmd = c.to_mmd)
      ∧ ∀ d : MessageDict, (Conversation.from_mmd [d]).to_mmd = [minimalForm d] := by
  constructor
  · intro c
    simp only [Conversation.to_mmd, Conversation.from_mmd, List.map_map]
    exact List.map_congr_left fun m _ => to_dict_validate_to_dict m
  · intro d
    simp [Conversation.from_mmd, Conversation.to_mmd, to_dict_validate]

/-- The score of `scoreMsg3` is 3. -/
theorem scoreMsg3_score : scoreMsg3.score = 3 := by
  have h1 : scoreExtract scoreMsg3.content = some (String.toList " 3.0") := by decide
  have h2 : parsePyFloat (pyStrip (String.toList " 3.0")) = some (false, ['3'], ['0'], 0) := by
    decide
  have h3 : decimalValue false ['3'] ['0'] 0 = 3 := by
    norm_num [decimalValue, show natOfDigits ['3'] = 3 from by decide,
      show natOfDigits ['0'] = 0 from by decide]
  simp only [ScoreMessage.score, scoreWithDiag, h1, pyFloat, h2, Option.map_some', h3]

/-- The score of `scoreMsg8` is 8. -/
theorem scoreMsg8_score : scoreMsg8.score = 8 := by
  have h1 : scoreExtract scoreMsg8.content = some (String.toList " 8.0") := by decide
  have h2 : parsePyFloat (pyStrip (String.toList " 8.0")) = some (false, ['8'], ['0'], 0) := by
    decide
  have h3 : decimalValue false ['8'] ['0'] 0 = 8 := by
    norm_num [decimalValue, show natOfDigits ['8'] = 8 from by decide,
      show natOfDigits ['0'] = 0 from by decide]
  simp only [ScoreMessage.score, scoreWithDiag, h1, pyFloat, h2, Option.map_some', h3]

/-- C9: both `__lt__` implementations invert the natural order — `a < b` iff
`a.score > b.score` — so a min-heap priority queue pops the highest-scoring
element first: of the two concrete steps with scores 3.0 and 8.0, the one
with score 8.0 is dequeued first (likewise for the bare score messages). -/
theorem c9_priority_order :
    (∀ a b : ScoreMessage, ScoreMessage.lt a b = true ↔ b.score < a.score)
      ∧ (∀ a b : Step, Step.lt a b = true ↔ b.score < a.score)
      ∧ heapPopTwo Step.lt step3 step8 = step8
      ∧ heapPopTwo ScoreMessage.lt scoreMsg3 scoreMsg8 = scoreMsg8 := by
  have hs3 : step3.score = 3 := scoreMsg3_score
  have hs8 : step8.score = 8 := scoreMsg8_score
  refine ⟨?_, ?_, ?_, ?_⟩
  · intro a b
    simp [ScoreMessage.lt]
  · intro a b
    simp [Step.lt]
  · have hlt : Step.lt step8 step3 = true := by
      rw [Step.lt, hs3, hs8]
      norm_num
    simp [heapPopTwo, hlt]
  · have hlt : ScoreMessage.lt scoreMsg8 scoreMsg3 = true := by
      rw [ScoreMessage.lt, scoreMsg3_score, scoreMsg8_score]
      norm_num
    simp [heapPopTwo, hlt]

/-- C10: `is_final` checks for `TERMINAL: YES` before `TERMINAL: NO` on the
upper-cased content, so content containing both markers (in any letter case)
yields `True`; content containing neither yields `None` — not `False` —
despite the declared `bool` return type. -/
theorem c10_is_final :
    (∀ m : TerminalCheckMessage,
        containsSeq (pyUpper m.content) (String.toList "TERMINAL: YES") = true →
        containsSeq (pyUpper m.content) (String.toList "TERMINAL: NO") = true →
        m.is_final = some true)
      ∧ ∀ m : TerminalCheckMessage,
        containsSeq (pyUpper m.content) (String.toList "TERMINAL: YES") = false →
        containsSeq (pyUpper m.content) (String.toList "TERMINAL: NO") = false →
        m.is_final ≠ some false ∧ m.is_final = none := by
  constructor
  · intro m hyes _
    simp at hyes
    simp [TerminalCheckMessage.is_final, hyes]
  · intro m hyes hno
    simp at hyes hno
    simp [TerminalCheckMessage.is_final, hyes, hno]

/-- C10 witness: a message containing both markers in mixed letter case is
final, and a message with neither marker gets `none`. -/
theorem c10_is_final_witness :
    exTerminalBoth.is_final = some true
      ∧ ({ toMessage := Message.assistant (String.toList "keep going") }
          : TerminalCheckMessage).is_final = none :=
  ⟨c10_is_final.1 exTerminalBoth (by decide) (by decide),
    (c10_is_final.2 { toMessage := Message.assistant (String.toList "keep going") }
      (by decide) (by decide)).2⟩

/-- Inversion of `splitFirst`: a found occurrence decomposes the string. -/
theorem splitFirst_append {sep : PyStr} :
    ∀ {s a b : PyStr}, splitFirst sep s = some (a, b) → s = a ++ sep ++ b := by
  intro s
  induction s with
  | nil =>
    intro a b h
    rw [splitFirst] at h
    by_cases hsep : sep.isEmpty
    · rw [if_pos hsep] at h
      obtain ⟨rfl, rfl⟩ := Prod.mk.injEq _ _ _ _ ▸ Option.some_inj.mp h
      simp [List.isEmpty_iff.mp hsep]
    · rw [if_neg hsep] at h
      exact absurd h (by simp)
  | cons c rest ih =>
    intro a b h
    rw [splitFirst] at h
    by_cases htake : (c :: rest).take sep.length = sep
    · rw [if_pos htake] at h
      obtain ⟨rfl, rfl⟩ := Prod.mk.injEq _ _ _ _ ▸ Option.some_inj.mp h
      conv_lhs => rw [← List.take_append_drop sep.length (c :: rest)]
      rw [htake]
      simp
    · rw [if_neg htake] at h
      cases hsf : splitFirst sep rest with
      | none => rw [hsf] at h; exact absurd h (by simp)
      | some p =>
        rw [hsf] at h
        simp only [Option.map_some', Option.some_inj] at h
        obtain ⟨a', b'⟩ := p
        simp only at h
        cases h
        simp [ih hsf]

/-- The head of a marker split is the text up to the next occurrence. -/
theorem pySplitFuel_head (m : ℕ) (b : PyStr) :
    (pySplitFuel scoreMarker (m + 1) b).head? = some (untilNextMarker b) := by
  rw [pySplitFuel, untilNextMarker]
  cases h : splitFirst scoreMarker b with
  | none => rfl
  | some p => rfl

/-- `line.split("Total Score:")[1]` is the text between the first marker
occurrence and the next one (or the end of the line). -/
theorem pySplit_get1 {line a b : PyStr}
    (h : splitFirst scoreMarker line = some (a, b)) :
    (pySplit line scoreMarker).get? 1 = some (untilNextMarker b) := by
  have hpos : 0 < line.length := by
    rw [splitFirst_append h]
    simp [scoreMarker]
  have hlen : line.length = (line.length - 1) + 1 := by omega
  rw [pySplit, pySplitFuel, h]
  rw [show (a :: pySplitFuel scoreMarker line.length b).get? 1
    = (pySplitFuel scoreMarker line.length b).head? from by
      cases hq : pySplitFuel scoreMarker line.length b <;> rfl]
  rw [hlen]
  exact pySplitFuel_head _ b

/-- On content whose last marker-carrying line splits at the first marker
occurrence as `a ++ marker ++ b`, the score extraction yields the text of `b`
up to the next marker occurrence. -/
theorem c5_extract (ls ls2 : List PyStr) (line a b : PyStr)
    (hnl : ∀ l ∈ ls ++ line :: ls2, ('\n' : Char) ∉ l)
    (hls2 : ∀ l ∈ ls2, containsSeq l scoreMarker = false)
    (hsp : splitFirst scoreMarker line = some (a, b)) :
    scoreExtract (List.intercalate ['\n'] (ls ++ line :: ls2)) = some (untilNextMarker b) := by
  have hsplit : (List.intercalate ['\n'] (ls ++ line :: ls2)).splitOn '\n'
      = ls ++ line :: ls2 :=
    List.splitOn_intercalate (ls ++ line :: ls2) '\n' hnl (by simp)
  have hcont : containsSeq line scoreMarker = true := by
    rw [containsSeq, hsp]; rfl
  have hf2 : ls2.filter (fun l => containsSeq l scoreMarker) = [] :=
    List.filter_eq_nil_iff.mpr (by intro l hl; simp [hls2 l hl])
  have hfilter : (ls ++ line :: ls2).filter (fun l => containsSeq l scoreMarker)
      = ls.filter (fun l => containsSeq l scoreMarker) ++ [line] := by
    rw [List.filter_append]
    simp [List.filter_cons, hcont, hf2]
  rw [scoreExtract]
  rw [hsplit, hfilter, List.getLast?_concat]
  exact pySplit_get1 hsp

/-- C5 (amended): `ScoreMessage.score` never raises.  When no line of the
content contains `"Total Score:"`, the score is `-1.0` with a diagnostic.
When some lines contain the marker, the **last** such line wins, and the
score is parsed from the text after the first marker occurrence on that line
*truncated at the next marker occurrence* (end of line if none); if that text
is non-numeric the score is `-1.0` with a diagnostic. -/
theorem c5_score_parsing :
    (∀ content : PyStr,
        (∀ l ∈ content.splitOn '\n', containsSeq l scoreMarker = false) →
        scoreWithDiag content = (-1, true))
      ∧ ∀ (ls ls2 : List PyStr) (line a b : PyStr),
        (∀ l ∈ ls ++ line :: ls2, ('\n' : Char) ∉ l) →
        (∀ l ∈ ls2, containsSeq l scoreMarker = false) →
        splitFirst scoreMarker line = some (a, b) →
        line = a ++ scoreMarker ++ b
          ∧ scoreWithDiag (List.intercalate ['\n'] (ls ++ line :: ls2))
            = match pyFloat (pyStrip (untilNextMarker b)) with
              | some q => (q, false)
              | none => (-1, true) := by
  constructor
  · intro content hnone
    have hnil : (content.splitOn '\n').filter (fun l => containsSeq l scoreMarker) = [] :=
      List.filter_eq_nil_iff.mpr (by intro l hl; simp [hnone l hl])
    have hext : scoreExtract content = none := by
      rw [scoreExtract, hnil]
      rfl
    rw [scoreWithDiag, hext]
  · intro ls ls2 line a b hnl hls2 hsp
    refine ⟨splitFirst_append hsp, ?_⟩
    rw [scoreWithDiag, c5_extract ls ls2 line a b hnl hls2 hsp]

/-- C5 counterexample: on the single line
`"Total Score: 5 Total Score: 6"` the code parses `5.0` (the text *between*
the two marker occurrences), while the claim's reading — all the text after
the marker, which is non-numeric here — prescribes `-1.0` with a
diagnostic. -/
theorem c5_counterexample :
    scoreWithDiag c5Content = (5, false) ∧ specScoreClaim c5Content = (-1, true) := by
  constructor
  · have h1 : scoreExtract c5Content = some (String.toList " 5 ") := by decide
    have h2 : parsePyFloat (pyStrip (String.toList " 5 ")) = some (false, ['5'], [], 0) := by
      decide
    have h3 : decimalValue false ['5'] [] 0 = 5 := by
      norm_num [decimalValue, show natOfDigits ['5'] = 5 from by decide,
        show natOfDigits [] = 0 from by decide]
    simp only [scoreWithDiag, h1, pyFloat, h2, Option.map_some', h3]
  · have h1 : specScoreExtract c5Content = some (String.toList " 5 Total Score: 6") := by
      decide
    have h2 : parsePyFloat (pyStrip (String.toList " 5 Total Score: 6")) = none := by decide
    simp only [specScoreClaim, h1, pyFloat, h2, Option.map_none']

/-- C5 witness: the amended theorem applied to a concrete three-line content
whose middle line carries `Total Score: 7`. -/
theorem c5_score_parsing_witness :
    scoreWithDiag (List.intercalate ['\n']
        [String.toList "intro line", String.toList "Total Score: 7", String.toList "done"])
      = (7, false) := by
  have h := (c5_score_parsing.2 [String.toList "intro line"] [String.toList "done"]
      (String.toList "Total Score: 7") [] (String.toList " 7")
      (by decide) (by decide) (by decide)).2
  rw [show ([String.toList "intro line"]
      ++ (String.toList "Total Score: 7") :: [String.toList "done"])
    = [String.toList "intro line", String.toList "Total Score: 7", String.toList "done"]
    from rfl] at h
  rw [h]
  have h2 : parsePyFloat (pyStrip (untilNextMarker (String.toList " 7")))
      = some (false, ['7'], [], 0) := by decide
  simp only [pyFloat, h2, Option.map_some']
  norm_num [decimalValue, show natOfDigits ['7'] = 7 from by decide,
    show natOfDigits [] = 0 from by decide]

end O1Tree
